import Mathlib

/-!
Verification development for the PPM (Netpbm family) image plugin.

The Python source (`src/PIL/PpmImagePlugin.py`) is shallowly embedded:
byte strings become `List Nat` (one entry per byte, values 0..255),
the readable byte source of the streaming decoder becomes a
`List (List Nat)` of read blocks (popping the head models one
`self.fd.read(...)` call; an exhausted list models `read` returning the
empty byte string), and Python exceptions become `Except.error` with the
corresponding message text.  Loops whose Python termination argument is
extrinsic are written with an explicit step-index (`fuel`) that is chosen
large enough at each entry point; fuel-stability lemmas are proved for
the inner loops.
-/

/-- The whitespace byte set `b_whitespace = b"\x20\x09\x0a\x0b\x0c\x0d"`,
which is also the set used by Python's `bytes.split()` and
`bytes.isspace()`. -/
def isWs (c : Nat) : Bool :=
  c == 32 || c == 9 || c == 10 || c == 11 || c == 12 || c == 13

/-- Python `block.find(target, start)` on bytes: smallest index `i ≥ start`
with `block[i] = target`, or `-1` when there is none. `findIdxGe l t i`
scans `l` whose first element sits at absolute index `i`. -/
def findIdxGe : List Nat → Nat → Nat → Int
  | [], _, _ => -1
  | c :: cs, t, i => if c = t then (i : Int) else findIdxGe cs t (i + 1)

/-- `pyFind block target start` is Python `block.find(bytes([target]), start)`. -/
def pyFind (block : List Nat) (target : Nat) (start : Nat) : Int :=
  findIdxGe (block.drop start) target start

/-- `PpmPlainDecoder._find_comment_end`:
`a = block.find(b"\n", start); b = block.find(b"\r", start);`
`return min(a, b) if a * b > 0 else max(a, b)`. -/
def findCommentEnd (block : List Nat) (start : Nat) : Int :=
  let a := pyFind block 10 start
  let b := pyFind block 13 start
  if a * b > 0 then min a b else max a b

/-- One iteration structure of `PpmPlainDecoder._ignore_comments`: delete
each complete `#`-comment (through its terminating CR/LF); if a comment
opens but does not close in this block, truncate there and raise the
spanning flag.  The step index is bounded by the block length at the
entry point `ignoreComments`; each iteration strictly shrinks the block. -/
def ignoreCommentsGo : Nat → List Nat → List Nat × Bool
  | 0, block => (block, false)
  | fuel + 1, block =>
    let cs := pyFind block 35 0
    if cs = -1 then (block, false)
    else
      let ce := findCommentEnd block cs.toNat
      if ce = -1 then (block.take cs.toNat, true)
      else ignoreCommentsGo fuel (block.take cs.toNat ++ block.drop (ce.toNat + 1))

/-- `PpmPlainDecoder._ignore_comments(block)`, returning the cleaned block
and the `comment_spans` flag. -/
def ignoreComments (block : List Nat) : List Nat × Bool :=
  ignoreCommentsGo (block.length + 1) block

/-- The `while block and comment_spans:` loop shared by `_decode_bitonal`
and `_decode_blocks`: while a comment left open by a previous block has
not ended, look for its CR/LF end; drop through it when found, otherwise
discard the block and read the next one.  Returns the surviving block
and the remaining read blocks.  (The `comment_spans` flag itself is
recomputed immediately afterwards by `_ignore_comments` in both callers.) -/
def skipSpannedComment : List (List Nat) → List Nat → List Nat × List (List Nat)
  | fd, block =>
    if block.isEmpty then (block, fd)
    else
      let ce := findCommentEnd block 0
      if ce = -1 then
        match fd with
        | [] => ([], [])
        | b :: rest => skipSpannedComment rest b
      else (block.drop (ce.toNat + 1), fd)

/-- Python `block.split()`: split on runs of ASCII whitespace, dropping
empty tokens.  `acc` holds the current token reversed. -/
def splitWsAux : List Nat → List Nat → List (List Nat)
  | [], acc => if acc = [] then [] else [acc.reverse]
  | c :: cs, acc =>
    if isWs c then
      if acc = [] then splitWsAux cs [] else acc.reverse :: splitWsAux cs []
    else splitWsAux cs (c :: acc)

/-- Python `block.split()` on bytes. -/
def splitWs (block : List Nat) : List (List Nat) := splitWsAux block []

/-- Python truthiness of `block and not block[-1:].isspace()`: the block is
nonempty and its last byte is not whitespace (so the block may have split
a token). -/
def lastNonWs (block : List Nat) : Bool :=
  match block.getLast? with
  | none => false
  | some c => !(isWs c)

/-- Strip leading and trailing ASCII whitespace, as Python `int` does on
its bytes argument. -/
def stripWs (l : List Nat) : List Nat :=
  ((l.dropWhile isWs).reverse.dropWhile isWs).reverse

/-- ASCII decimal digit test. -/
def isDigit (c : Nat) : Bool := 48 ≤ c && c ≤ 57

/-- Digit run with single underscores allowed between digits (Python 3
`int` literal syntax); the first character was already checked to be a
digit by `pyIntCore`. -/
def digitsCore : List Nat → Nat → Option Nat
  | [], acc => some acc
  | c :: cs, acc =>
    if isDigit c then digitsCore cs (acc * 10 + (c - 48))
    else if c = 95 then
      match cs with
      | [] => none
      | d :: _ => if isDigit d then digitsCore cs acc else none
    else none

/-- Unsigned part of Python `int` parsing: at least one digit, starting
with a digit. -/
def pyIntCore (l : List Nat) : Option Nat :=
  match l with
  | [] => none
  | c :: _ => if isDigit c then digitsCore l 0 else none

/-- Error message of Python `int()` on an unparsable byte string. -/
def pyIntErr (t : List Nat) : String :=
  "invalid literal for int with base 10: " ++ toString t

/-- Python `int(token)` on a byte string: strip ASCII whitespace, then an
optional sign followed by digits (underscores allowed between digits). -/
def pyInt (t : List Nat) : Except String Int :=
  match stripWs t with
  | 43 :: r =>
    match pyIntCore r with
    | some n => Except.ok (n : Int)
    | none => Except.error (pyIntErr t)
  | 45 :: r =>
    match pyIntCore r with
    | some n => Except.ok (-(n : Int))
    | none => Except.error (pyIntErr t)
  | r =>
    match pyIntCore r with
    | some n => Except.ok (n : Int)
    | none => Except.error (pyIntErr t)

/-- Big-endian byte rendering of `v` into `n` bytes (semantics of
`int.to_bytes(n, "big")` for in-range values). -/
def natToBytesBE (v : Nat) : Nat → List Nat
  | 0 => []
  | n + 1 => (v / 256 ^ n) % 256 :: natToBytesBE v n

/-- Python `v.to_bytes(n, "big")`: `OverflowError` on a negative value or
on a value that does not fit in `n` bytes. -/
def toBytesBE (v : Int) (n : Nat) : Except String (List Nat) :=
  if v < 0 then Except.error "cannot convert negative int to unsigned"
  else if (256 : Int) ^ n ≤ v then Except.error "int too big to convert"
  else Except.ok (natToBytesBE v.toNat n)

/-- Error message raised by `_decode_bitonal` on a byte other than the
ASCII digits `'0'`/`'1'` (rendered here by its byte value). -/
def bitonalTokenErr (c : Nat) : String :=
  "Invalid token for this mode: " ++ toString c

/-- Error message `f"Token too long found in data: {token[:max_len + 1]}"`
of `_decode_blocks` (the offending token truncated to 11 bytes). -/
def dataTokenTooLongErr (t : List Nat) : String :=
  "Token too long found in data: " ++ toString (t.take 11)

/-- Error message `f"Channel value too large for this mode: {token}"`. -/
def channelValueErr (v : Int) : String :=
  "Channel value too large for this mode: " ++ toString v

/-- The validation loop of `_decode_bitonal`: every byte of the joined
token run must be ASCII `'0'` (48) or `'1'` (49); the first other byte
raises a `ValueError` naming it. -/
def checkBitonalTokens : List Nat → Except String Unit
  | [] => Except.ok ()
  | c :: cs =>
    if c = 48 ∨ c = 49 then checkBitonalTokens cs
    else Except.error (bitonalTokenErr c)

/-- The table `bytes.maketrans(b"01", b"\xFF\x00")` applied by
`_decode_bitonal` on return: `'0' ↦ 0xFF`, `'1' ↦ 0x00`, all other bytes
unchanged. -/
def bitonalTranslate (c : Nat) : Nat :=
  if c = 48 then 255 else if c = 49 then 0 else c

/-- One iteration body of the `_decode_bitonal` block loop, after a
nonempty block was read: resolve a spanning comment, strip comments,
join the whitespace-split tokens, validate the digits, and append the
digits to the buffer truncated at `total` bytes.  Returns the remaining
read blocks, the new buffer and the new `comment_spans` flag. -/
def decodeBitonalStep (total : Nat) (rest : List (List Nat)) (block : List Nat)
    (dec : List Nat) (cs : Bool) :
    Except String (List (List Nat) × List Nat × Bool) :=
  let s1 := if cs then skipSpannedComment rest block else (block, rest)
  let ic := ignoreComments s1.1
  let tokens := (splitWs ic.1).flatten
  match checkBitonalTokens tokens with
  | Except.error e => Except.error e
  | Except.ok _ => Except.ok (s1.2, (dec ++ tokens).take total, ic.2)

/-- The `while len(decoded_data) != total_bytes:` loop of
`_decode_bitonal`.  An empty read (`fd` exhausted, or an empty block)
breaks the loop, returning the buffer accumulated so far.  The step
index only has to cover one iteration per available read block plus the
final end-of-stream check. -/
def decodeBitonalLoop (total : Nat) :
    Nat → List (List Nat) → List Nat → Bool → Except String (List Nat)
  | 0, _, _, _ => Except.error "decode loop step limit"
  | fuel + 1, fd, dec, cs =>
    if dec.length = total then Except.ok dec
    else
      match fd with
      | [] => Except.ok dec
      | block :: rest =>
        if block = [] then Except.ok dec
        else
          match decodeBitonalStep total rest block dec cs with
          | Except.error e => Except.error e
          | Except.ok s => decodeBitonalLoop total fuel s.1 s.2.1 s.2.2

/-- `PpmPlainDecoder._decode_bitonal` with the read blocks given
explicitly: decode `xsize * ysize` plain-PBM digits and translate them
through `b"01" ↦ b"\xFF\x00"`. -/
def decodeBitonal (xsize ysize : Nat) (fd : List (List Nat)) : Except String (List Nat) :=
  match decodeBitonalLoop (xsize * ysize) (fd.length + 2) fd [] false with
  | Except.error e => Except.error e
  | Except.ok d => Except.ok (d.map bitonalTranslate)

/-- The `for token in tokens:` loop of `_decode_blocks`: reject a token
longer than 10 bytes, parse it with `int`, reject a value above `maxval`,
pack it into `bps` big-endian bytes, and stop as soon as the buffer
reaches `total` bytes. -/
def processTokens (bps maxval total : Nat) :
    List (List Nat) → List Nat → Except String (List Nat)
  | [], dec => Except.ok dec
  | t :: ts, dec =>
    if t.length > 10 then Except.error (dataTokenTooLongErr t)
    else
      match pyInt t with
      | Except.error e => Except.error e
      | Except.ok v =>
        if v > (maxval : Int) then Except.error (channelValueErr v)
        else
          match toBytesBE v bps with
          | Except.error e => Except.error e
          | Except.ok bs =>
            let dec2 := dec ++ bs
            if dec2.length = total then Except.ok dec2
            else processTokens bps maxval total ts dec2

/-- One iteration body of the `_decode_blocks` loop after the block to
process (`block0`, possibly the synthetic `b" "` flush) is known:
resolve a spanning comment, strip comments, stitch the carried half
token in front, split into tokens, hold back an incomplete trailing
token (note the source never clears `half_token` in the other case), and
run the token loop.  Returns the remaining read blocks, the new buffer,
the new `comment_spans` flag and the new `half_token`. -/
def decodeBlocksStep (bps maxval total : Nat) (fdRest : List (List Nat))
    (block0 : List Nat) (dec : List Nat) (cs : Bool) (ht : List Nat) :
    Except String (List (List Nat) × List Nat × Bool × List Nat) :=
  let s1 := if cs then skipSpannedComment fdRest block0 else (block0, fdRest)
  let ic := ignoreComments s1.1
  let block3 := if ht = [] then ic.1 else ht ++ ic.1
  let tokens0 := splitWs block3
  if lastNonWs block3 then
    match tokens0.getLast? with
    | none => Except.error "pop from empty list"
    | some t =>
      if t.length > 10 then Except.error (dataTokenTooLongErr t)
      else
        match processTokens bps maxval total tokens0.dropLast dec with
        | Except.error e => Except.error e
        | Except.ok dec2 => Except.ok (s1.2, dec2, ic.2, t)
  else
    match processTokens bps maxval total tokens0 dec with
    | Except.error e => Except.error e
    | Except.ok dec2 => Except.ok (s1.2, dec2, ic.2, ht)

/-- The `while len(decoded_data) != total_bytes:` loop of
`_decode_blocks`.  An empty read with no pending `half_token` breaks the
loop; with a pending `half_token` the synthetic block `b" "` (byte 32)
is processed instead to flush it.  The step index at the entry point
covers one iteration per read block, one possible comment-flag clearing
iteration at end of stream, and one flush iteration per emitted sample. -/
def decodeBlocksLoop (bps maxval total : Nat) :
    Nat → List (List Nat) → List Nat → Bool → List Nat → Except String (List Nat)
  | 0, _, _, _, _ => Except.error "decode loop step limit"
  | fuel + 1, fd, dec, cs, ht =>
    if dec.length = total then Except.ok dec
    else
      match fd with
      | [] =>
        if ht = [] then Except.ok dec
        else
          match decodeBlocksStep bps maxval total [] [32] dec cs ht with
          | Except.error e => Except.error e
          | Except.ok s => decodeBlocksLoop bps maxval total fuel s.1 s.2.1 s.2.2.1 s.2.2.2
      | b :: rest =>
        if b = [] then
          if ht = [] then Except.ok dec
          else
            match decodeBlocksStep bps maxval total rest [32] dec cs ht with
            | Except.error e => Except.error e
            | Except.ok s => decodeBlocksLoop bps maxval total fuel s.1 s.2.1 s.2.2.1 s.2.2.2
        else
          match decodeBlocksStep bps maxval total rest b dec cs ht with
          | Except.error e => Except.error e
          | Except.ok s => decodeBlocksLoop bps maxval total fuel s.1 s.2.1 s.2.2.1 s.2.2.2

/-- `PpmPlainDecoder._decode_blocks(channels, depth)` with the read
blocks given explicitly.  As in the source, the value bound `maxval` is
recomputed from the depth (`2 ** (31 if depth == 32 else depth) - 1`),
not taken from the header. -/
def decodeBlocks (channels depth xsize ysize : Nat) (fd : List (List Nat)) :
    Except String (List Nat) :=
  let maxval := 2 ^ (if depth = 32 then 31 else depth) - 1
  let bps := depth / 8
  let total := xsize * ysize * channels * bps
  decodeBlocksLoop bps maxval total (fd.length + total + 8) fd [] false []

/-- The inner comment loop of `PpmImageFile._read_token`:
`while self.fp.read(1) not in b"\r\n": pass` — discard bytes up to and
including the first CR or LF (end of stream also stops it, since the
empty read is contained in `b"\r\n"`). -/
def skipCommentLine : List Nat → List Nat
  | [] => []
  | c :: cs => if c = 13 ∨ c = 10 then cs else skipCommentLine cs

/-- The `while len(token) <= 10:` loop of `PpmImageFile._read_token`,
reading one byte at a time: skip leading whitespace, skip `#`-comment
lines, stop at the first whitespace byte after the token started, stop
at end of stream, and stop once the accumulated token exceeds 10 bytes.
Returns the accumulated token and the unread remainder of the stream.
Each iteration consumes at least one stream byte, so the step index at
the entry point (`stream length + 1`) always suffices. -/
def readTokenGo : Nat → List Nat → List Nat → List Nat × List Nat
  | 0, token, fp => (token, fp)
  | fuel + 1, token, fp =>
    if token.length > 10 then (token, fp)
    else
      match fp with
      | [] => (token, [])
      | c :: cs =>
        if isWs c then
          if token = [] then readTokenGo fuel token cs else (token, cs)
        else if c = 35 then readTokenGo fuel token (skipCommentLine cs)
        else readTokenGo fuel (token ++ [c]) cs

/-- Error message `f"Token too long in file header: {token}"`. -/
def headerTokenTooLongErr (t : List Nat) : String :=
  "Token too long in file header: " ++ toString t

/-- `PpmImageFile._read_token`: returns the token and the unread rest of
the stream, or raises on an empty token at end of stream or on a token
longer than 10 bytes. -/
def readToken (fp : List Nat) : Except String (List Nat × List Nat) :=
  let r := readTokenGo (fp.length + 1) [] fp
  if r.1 = [] then Except.error "Reached EOF while reading header"
  else if r.1.length > 10 then Except.error (headerTokenTooLongErr r.1)
  else Except.ok r

/-- `PpmImageFile._read_magic`: read up to 6 bytes, stopping at (and
consuming) the first whitespace byte or at end of stream. -/
def readMagicGo : Nat → List Nat → List Nat → List Nat × List Nat
  | 0, acc, fp => (acc, fp)
  | n + 1, acc, fp =>
    match fp with
    | [] => (acc, [])
    | c :: cs => if isWs c then (acc, cs) else readMagicGo n (acc ++ [c]) cs

/-- `PpmImageFile._read_magic` on an explicit byte stream. -/
def readMagic (fp : List Nat) : List Nat × List Nat := readMagicGo 6 [] fp

/-- The `MODES` table: magic byte sequence to base mode string. -/
def MODES (magic : List Nat) : Option String :=
  if magic = [80, 49] then some "1"
  else if magic = [80, 50] then some "L"
  else if magic = [80, 51] then some "RGB"
  else if magic = [80, 52] then some "1"
  else if magic = [80, 53] then some "L"
  else if magic = [80, 54] then some "RGB"
  else if magic = [80, 48, 67, 77, 89, 75] then some "CMYK"
  else if magic = [80, 121, 80] then some "P"
  else if magic = [80, 121, 82, 71, 66, 65] then some "RGBA"
  else if magic = [80, 121, 67, 77, 89, 75] then some "CMYK"
  else none

/-- The max-value step of `PpmImageFile._open` (loop index `ix == 2`):
given the base mode set at `ix == 1` and the parsed `maxval` token,
return the final `(self.mode, rawmode)` pair, or raise
`"Too many colors for band"` when `maxval > 255` for a non-grayscale
base mode.  For `maxval <= 255` the pair set at `ix == 1` is kept. -/
def openMaxvalResolve (mode : String) (maxval : Int) : Except String (String × String) :=
  if maxval > 255 then
    if mode ≠ "L" then Except.error ("Too many colors for band: " ++ toString maxval)
    else if maxval < 2 ^ 16 then Except.ok ("I", "I;16B")
    else Except.ok ("I", "I;32B")
  else Except.ok (mode, mode)

/-- Result of `PpmImageFile._open`: the magic bytes, the resolved mode
and rawmode, the parsed sizes, and the unread rest of the stream (the
tile offset `self.fp.tell()` points at its first byte). -/
structure OpenResult where
  magic : List Nat
  mode : String
  rawmode : String
  xsize : Int
  ysize : Int
  rest : List Nat
deriving Repr, DecidableEq

/-- `PpmImageFile._open`: read the magic, look it up in `MODES`, read the
header tokens (two for bitonal modes, three otherwise), and resolve the
final mode and rawmode. -/
def openPPM (fp : List Nat) : Except String OpenResult :=
  let m := readMagic fp
  match MODES m.1 with
  | none => Except.error "not a PPM file"
  | some mode =>
    match readToken m.2 with
    | Except.error e => Except.error e
    | Except.ok (t1, fp2) =>
      match pyInt t1 with
      | Except.error e => Except.error e
      | Except.ok xsize =>
        match readToken fp2 with
        | Except.error e => Except.error e
        | Except.ok (t2, fp3) =>
          match pyInt t2 with
          | Except.error e => Except.error e
          | Except.ok ysize =>
            if mode = "1" then Except.ok ⟨m.1, "1", "1;I", xsize, ysize, fp3⟩
            else
              match readToken fp3 with
              | Except.error e => Except.error e
              | Except.ok (t3, fp4) =>
                match pyInt t3 with
                | Except.error e => Except.error e
                | Except.ok maxv =>
                  match openMaxvalResolve mode maxv with
                  | Except.error e => Except.error e
                  | Except.ok mr => Except.ok ⟨m.1, mr.1, mr.2, xsize, ysize, fp4⟩

/-- The depth (in bits) chosen by `PpmPlainDecoder.decode` from the
resolved mode and rawmode for the non-bitonal paths (`none` for the
bitonal path and for pairs the plain decoder is never invoked on). -/
def plainDepth (mode rawmode : String) : Option Nat :=
  if mode = "1" then none
  else if mode = "L" then some 8
  else if mode = "I" then
    if rawmode = "I;16B" then some 16
    else if rawmode = "I;32B" then some 32
    else none
  else if mode = "RGB" then some 8
  else none

/-- End-to-end plain-variant decode: `PpmImageFile._open` followed by the
dispatch of `PpmPlainDecoder.decode` (bitonal for mode `"1"`, otherwise
`_decode_blocks` with the channels/depth chosen from mode and rawmode).
The pixel section is handed to the streaming decoder as a single read
block.  Only the plain magics `P1`/`P2`/`P3` use this decoder in
`_open`; sizes are taken at their natural-number values. -/
def decodePlainFile (fp : List Nat) : Except String (List Nat) :=
  match openPPM fp with
  | Except.error e => Except.error e
  | Except.ok r =>
    if r.magic = [80, 49] ∨ r.magic = [80, 50] ∨ r.magic = [80, 51] then
      if r.mode = "1" then decodeBitonal r.xsize.toNat r.ysize.toNat [r.rest]
      else if r.mode = "L" then decodeBlocks 1 8 r.xsize.toNat r.ysize.toNat [r.rest]
      else if r.mode = "I" then
        if r.rawmode = "I;16B" then decodeBlocks 1 16 r.xsize.toNat r.ysize.toNat [r.rest]
        else if r.rawmode = "I;32B" then decodeBlocks 1 32 r.xsize.toNat r.ysize.toNat [r.rest]
        else Except.error "unexpected rawmode"
      else if r.mode = "RGB" then decodeBlocks 3 8 r.xsize.toNat r.ysize.toNat [r.rest]
      else Except.error "unexpected mode"
    else Except.error "not a plain-text variant"

/-- The mode dispatch of `_save`: pixel mode to `(rawmode, head)`, using
`im.getextrema()[1]` (here `extremaMax`) for mode `"I"`.  Any mode
outside `1`, `L`, `I`, `RGB`, `RGBA` raises an `OSError` before anything
is written. -/
def saveResolve (mode : String) (extremaMax : Int) : Except String (String × String) :=
  if mode = "1" then Except.ok ("1;I", "P4")
  else if mode = "L" then Except.ok ("L", "P5")
  else if mode = "I" then
    if extremaMax < 2 ^ 16 then Except.ok ("I;16B", "P5")
    else Except.ok ("I;32B", "P5")
  else if mode = "RGB" then Except.ok ("RGB", "P6")
  else if mode = "RGBA" then Except.ok ("RGB", "P6")
  else Except.error ("cannot write mode " ++ mode ++ " as PPM")

/-- The header text written by `_save`: the magic line, the size line,
and the max-value line chosen by head and rawmode. -/
def saveHeaderText (head rawmode : String) (w h : Nat) : String :=
  head ++ "\n" ++ toString w ++ " " ++ toString h ++ "\n" ++
    (if head = "P6" then "255\n" else "") ++
    (if head = "P5" then
      (if rawmode = "L" then "255\n"
       else if rawmode = "I;16B" then "65535\n"
       else if rawmode = "I;32B" then "2147483648\n"
       else "")
     else "")

/-- `_save` up to the hand-off to the external raw encoder: returns the
header text and the rawmode passed on for pixel emission, or the encode
error (raised before any header byte is written). -/
def ppmSave (mode : String) (extremaMax : Int) (w h : Nat) :
    Except String (String × String) :=
  match saveResolve mode extremaMax with
  | Except.error e => Except.error e
  | Except.ok rh => Except.ok (saveHeaderText rh.2 rh.1 w h, rh.1)

/-- `_accept(prefix)`: `prefix[0:1] == b"P" and prefix[1] in b"0123456y"`.
The subscript `prefix[1]` raises `IndexError` when the prefix is shorter
than 2 bytes and the first conjunct was already true. -/
def ppmAccept (pre : List Nat) : Except String Bool :=
  if pre.take 1 = [80] then
    match pre.get? 1 with
    | none => Except.error "IndexError: index out of range"
    | some c => Except.ok (c ∈ [48, 49, 50, 51, 52, 53, 54, 121])
  else Except.ok false

/-- A found index is at least the scan origin. -/
lemma findIdxGe_ge (l : List Nat) (t i : Nat) (h : findIdxGe l t i ≠ -1) :
    (i : Int) ≤ findIdxGe l t i := by
  induction l generalizing i with
  | nil => simp [findIdxGe] at h
  | cons c cs ih =>
    by_cases hc : c = t
    · simp [findIdxGe, hc]
    · simp only [findIdxGe, if_neg hc] at h ⊢
      have := ih (i + 1) h
      push_cast at this ⊢
      omega

/-- A found index is below the end of the scanned list. -/
lemma findIdxGe_lt (l : List Nat) (t i : Nat) (h : findIdxGe l t i ≠ -1) :
    findIdxGe l t i < (i : Int) + l.length := by
  induction l generalizing i with
  | nil => simp [findIdxGe] at h
  | cons c cs ih =>
    by_cases hc : c = t
    · simp only [findIdxGe, if_pos hc, List.length_cons]
      push_cast
      omega
    · simp only [findIdxGe, if_neg hc] at h ⊢
      have := ih (i + 1) h
      simp only [List.length_cons]
      push_cast at this ⊢
      omega

/-- A successful `pyFind` is at least the start position. -/
lemma pyFind_ge (l : List Nat) (t s : Nat) (h : pyFind l t s ≠ -1) :
    (s : Int) ≤ pyFind l t s :=
  findIdxGe_ge _ t s h

/-- A successful `pyFind` is a valid index of the searched list. -/
lemma pyFind_lt (l : List Nat) (t s : Nat) (h : pyFind l t s ≠ -1) :
    pyFind l t s < (l.length : Int) := by
  by_cases hs : s ≤ l.length
  · have h2 := findIdxGe_lt (l.drop s) t s h
    rw [List.length_drop] at h2
    unfold pyFind
    omega
  · exfalso
    apply h
    unfold pyFind
    rw [List.drop_eq_nil_of_le (by omega)]
    rfl

/-- A successful `findCommentEnd` is at least the start position (in
particular nonnegative). -/
lemma findCommentEnd_ge (l : List Nat) (s : Nat) (h : findCommentEnd l s ≠ -1) :
    (s : Int) ≤ findCommentEnd l s := by
  have ha : pyFind l 10 s = -1 ∨ (s : Int) ≤ pyFind l 10 s := by
    by_cases h10 : pyFind l 10 s = -1
    · exact Or.inl h10
    · exact Or.inr (pyFind_ge l 10 s h10)
  have hb : pyFind l 13 s = -1 ∨ (s : Int) ≤ pyFind l 13 s := by
    by_cases h13 : pyFind l 13 s = -1
    · exact Or.inl h13
    · exact Or.inr (pyFind_ge l 13 s h13)
  simp only [findCommentEnd] at h ⊢
  split at h
  · rename_i hpos
    rcases ha with ha | ha <;> rcases hb with hb | hb <;>
      first
        | (rw [ha] at h hpos ⊢; rw [hb] at h hpos ⊢; omega)
        | (rw [ha] at h hpos ⊢; omega)
        | (rw [hb] at h hpos ⊢; omega)
        | omega
  · rcases ha with ha | ha <;> rcases hb with hb | hb <;>
      first
        | (rw [ha] at h ⊢; rw [hb] at h ⊢; omega)
        | (rw [ha] at h ⊢; omega)
        | (rw [hb] at h ⊢; omega)
        | omega

/-- Deleting a complete comment strictly shrinks the block (the comment
contains at least its `#` byte). -/
lemma ignore_shrink (block : List Nat)
    (hcs : pyFind block 35 0 ≠ -1)
    (hce : findCommentEnd block (pyFind block 35 0).toNat ≠ -1) :
    (block.take (pyFind block 35 0).toNat ++
      block.drop ((findCommentEnd block (pyFind block 35 0).toNat).toNat + 1)).length
      < block.length := by
  have h1 := pyFind_ge block 35 0 hcs
  have h2 := pyFind_lt block 35 0 hcs
  have h3 := findCommentEnd_ge block (pyFind block 35 0).toNat hce
  rw [List.length_append, List.length_take, List.length_drop]
  omega

/-- The step index of `ignoreCommentsGo` is irrelevant once it exceeds the
block length, so `ignoreComments` computes the exact fixpoint of the
source's `while True:` loop. -/
lemma ignoreCommentsGo_stable (f1 : Nat) :
    ∀ (block : List Nat) (f2 : Nat), block.length + 1 ≤ f1 → block.length + 1 ≤ f2 →
      ignoreCommentsGo f1 block = ignoreCommentsGo f2 block := by
  induction f1 with
  | zero => intro block f2 h1 _; omega
  | succ f1 ih =>
    intro block f2 h1 h2
    obtain ⟨f2', rfl⟩ : ∃ g, f2 = g + 1 := ⟨f2 - 1, by omega⟩
    simp only [ignoreCommentsGo]
    by_cases hcs : pyFind block 35 0 = -1
    · simp [hcs]
    · rw [if_neg hcs, if_neg hcs]
      by_cases hce : findCommentEnd block (pyFind block 35 0).toNat = -1
      · rw [if_pos hce, if_pos hce]
      · rw [if_neg hce, if_neg hce]
        have hlt := ignore_shrink block hcs hce
        exact ih _ _ (by omega) (by omega)

/-- `skipCommentLine` only discards bytes. -/
lemma skipCommentLine_length_le (l : List Nat) :
    (skipCommentLine l).length ≤ l.length := by
  induction l with
  | nil => simp [skipCommentLine]
  | cons c cs ih =>
    simp only [skipCommentLine]
    split
    · simp
    · simp only [List.length_cons]
      omega

/-- The step index of `readTokenGo` is irrelevant once it exceeds the
stream length: every iteration of `_read_token`'s loop consumes at least
one stream byte. -/
lemma readTokenGo_stable (f1 : Nat) :
    ∀ (token fp : List Nat) (f2 : Nat), fp.length + 1 ≤ f1 → fp.length + 1 ≤ f2 →
      readTokenGo f1 token fp = readTokenGo f2 token fp := by
  induction f1 with
  | zero => intro token fp f2 h1 _; omega
  | succ f1 ih =>
    intro token fp f2 h1 h2
    obtain ⟨f2', rfl⟩ : ∃ g, f2 = g + 1 := ⟨f2 - 1, by omega⟩
    cases fp with
    | nil => by_cases hg : token.length > 10 <;> simp [readTokenGo, hg]
    | cons c cs =>
      simp only [List.length_cons] at h1 h2
      simp only [readTokenGo]
      split
      · rfl
      · split
        · split
          · exact ih token cs f2' (by omega) (by omega)
          · rfl
        · split
          · have hsl := skipCommentLine_length_le cs
            exact ih token (skipCommentLine cs) f2' (by omega) (by omega)
          · exact ih (token ++ [c]) cs f2' (by omega) (by omega)

/-- `natToBytesBE` produces exactly the requested number of bytes. -/
lemma natToBytesBE_length (v n : Nat) : (natToBytesBE v n).length = n := by
  induction n with
  | zero => rfl
  | succ n ih => simp [natToBytesBE, ih]

/-- A successful `toBytesBE` produces exactly the requested number of bytes. -/
lemma toBytesBE_ok_length {v : Int} {n : Nat} {bs : List Nat}
    (h : toBytesBE v n = Except.ok bs) : bs.length = n := by
  unfold toBytesBE at h
  split at h
  · exact absurd h (by simp)
  · split at h
    · exact absurd h (by simp)
    · simp only [Except.ok.injEq] at h
      subst h
      exact natToBytesBE_length _ _

/-- The token loop of `_decode_blocks` keeps the buffer a multiple of the
sample width and never past `total`: each appended sample adds exactly
`bps` bytes and the loop breaks the moment the buffer reaches `total`. -/
lemma processTokens_inv (bps maxval total : Nat) :
    ∀ (ts : List (List Nat)) (dec d : List Nat),
      bps ∣ total → bps ∣ dec.length → dec.length < total →
      processTokens bps maxval total ts dec = Except.ok d →
      d.length ≤ total ∧ bps ∣ d.length := by
  intro ts
  induction ts with
  | nil =>
    intro dec d _ h2 h3 h4
    simp only [processTokens, Except.ok.injEq] at h4
    subst h4
    exact ⟨Nat.le_of_lt h3, h2⟩
  | cons t ts ih =>
    intro dec d h1 h2 h3 h4
    simp only [processTokens] at h4
    split at h4
    · exact absurd h4 (by simp)
    · split at h4
      · exact absurd h4 (by simp)
      · rename_i v hv
        split at h4
        · exact absurd h4 (by simp)
        · split at h4
          · exact absurd h4 (by simp)
          · rename_i bs hbs
            have hbl : bs.length = bps := toBytesBE_ok_length hbs
            have hstep : dec.length + bps ≤ total := by
              rcases h1 with ⟨j, hj⟩
              rcases h2 with ⟨i, hi⟩
              rcases Nat.eq_zero_or_pos bps with hb | hb
              · rw [hb, Nat.zero_mul] at hj
                omega
              · have hij : i + 1 ≤ j := by
                  have : bps * i < bps * j := by rw [← hi, ← hj]; exact h3
                  exact Nat.lt_of_mul_lt_mul_left this
                calc dec.length + bps = bps * i + bps := by rw [hi]
                  _ = bps * (i + 1) := by ring
                  _ ≤ bps * j := Nat.mul_le_mul_left bps hij
                  _ = total := hj.symm
            split at h4
            · rename_i heq
              simp only [Except.ok.injEq] at h4
              subst h4
              rw [heq]
              exact ⟨le_refl _, heq ▸ h1⟩
            · rename_i hne
              apply ih (dec ++ bs) d h1 ?_ ?_ h4
              · rw [List.length_append, hbl]
                exact Nat.dvd_add h2 dvd_rfl
              · rw [List.length_append, hbl]
                rw [List.length_append, hbl] at hne
                omega

/-- One `_decode_blocks` iteration preserves the buffer invariant. -/
lemma decodeBlocksStep_inv (bps maxval total : Nat) (fdRest : List (List Nat))
    (block0 dec : List Nat) (cs : Bool) (ht : List Nat)
    {out : List (List Nat) × List Nat × Bool × List Nat}
    (h1 : bps ∣ total) (h2 : bps ∣ dec.length) (h3 : dec.length < total)
    (h4 : decodeBlocksStep bps maxval total fdRest block0 dec cs ht = Except.ok out) :
    out.2.1.length ≤ total ∧ bps ∣ out.2.1.length := by
  simp only [decodeBlocksStep] at h4
  set s1 := if cs = true then skipSpannedComment fdRest block0 else (block0, fdRest) with hs1
  set ic := ignoreComments s1.1 with hic
  set b3 := if ht = [] then ic.1 else ht ++ ic.1 with hb3
  split at h4
  · split at h4
    · exact absurd h4 (by simp)
    · split at h4
      · exact absurd h4 (by simp)
      · split at h4
        · exact absurd h4 (by simp)
        · rename_i dec2 hp
          simp only [Except.ok.injEq] at h4
          subst h4
          exact processTokens_inv bps maxval total _ dec dec2 h1 h2 h3 hp
  · split at h4
    · exact absurd h4 (by simp)
    · rename_i dec2 hp
      simp only [Except.ok.injEq] at h4
      subst h4
      exact processTokens_inv bps maxval total _ dec dec2 h1 h2 h3 hp

/-- The `_decode_blocks` loop never lets the buffer grow past `total`
bytes, whatever the read blocks contain and wherever they are split. -/
lemma decodeBlocksLoop_inv (bps maxval total : Nat) :
    ∀ (fuel : Nat) (fd : List (List Nat)) (dec : List Nat) (cs : Bool)
      (ht : List Nat) (d : List Nat),
      bps ∣ total → bps ∣ dec.length → dec.length ≤ total →
      decodeBlocksLoop bps maxval total fuel fd dec cs ht = Except.ok d →
      d.length ≤ total := by
  intro fuel
  induction fuel with
  | zero =>
    intro fd dec cs ht d _ _ _ h4
    simp [decodeBlocksLoop] at h4
  | succ fuel ih =>
    intro fd dec cs ht d h1 h2 h3 h4
    simp only [decodeBlocksLoop] at h4
    split at h4
    · rename_i heq
      simp only [Except.ok.injEq] at h4
      subst h4
      omega
    · rename_i hne
      have h3' : dec.length < total := by omega
      split at h4
      · split at h4
        · simp only [Except.ok.injEq] at h4
          subst h4
          exact h3
        · split at h4
          · exact absurd h4 (by simp)
          · rename_i s hs
            have hinv := decodeBlocksStep_inv bps maxval total _ _ dec _ _ h1 h2 h3' hs
            exact ih s.1 s.2.1 s.2.2.1 s.2.2.2 d h1 hinv.2 hinv.1 h4
      · split at h4
        · split at h4
          · simp only [Except.ok.injEq] at h4
            subst h4
            exact h3
          · split at h4
            · exact absurd h4 (by simp)
            · rename_i s hs
              have hinv := decodeBlocksStep_inv bps maxval total _ _ dec _ _ h1 h2 h3' hs
              exact ih s.1 s.2.1 s.2.2.1 s.2.2.2 d h1 hinv.2 hinv.1 h4
        · split at h4
          · exact absurd h4 (by simp)
          · rename_i s hs
            have hinv := decodeBlocksStep_inv bps maxval total _ _ dec _ _ h1 h2 h3' hs
            exact ih s.1 s.2.1 s.2.2.1 s.2.2.2 d h1 hinv.2 hinv.1 h4

/-- One `_decode_bitonal` iteration truncates the buffer at `total`. -/
lemma decodeBitonalStep_len (total : Nat) (rest : List (List Nat))
    (block dec : List Nat) (cs : Bool)
    {out : List (List Nat) × List Nat × Bool}
    (h : decodeBitonalStep total rest block dec cs = Except.ok out) :
    out.2.1.length ≤ total := by
  simp only [decodeBitonalStep] at h
  split at h
  · exact absurd h (by simp)
  · simp only [Except.ok.injEq] at h
    subst h
    simp only [List.length_take]
    omega

/-- The `_decode_bitonal` loop never lets the buffer grow past `total`. -/
lemma decodeBitonalLoop_inv (total : Nat) :
    ∀ (fuel : Nat) (fd : List (List Nat)) (dec : List Nat) (cs : Bool) (d : List Nat),
      dec.length ≤ total →
      decodeBitonalLoop total fuel fd dec cs = Except.ok d →
      d.length ≤ total := by
  intro fuel
  induction fuel with
  | zero =>
    intro fd dec cs d _ h4
    simp [decodeBitonalLoop] at h4
  | succ fuel ih =>
    intro fd dec cs d h3 h4
    simp only [decodeBitonalLoop] at h4
    split at h4
    · simp only [Except.ok.injEq] at h4
      subst h4
      omega
    · split at h4
      · simp only [Except.ok.injEq] at h4
        subst h4
        exact h3
      · split at h4
        · simp only [Except.ok.injEq] at h4
          subst h4
          exact h3
        · split at h4
          · exact absurd h4 (by simp)
          · rename_i s hs
            exact ih s.1 s.2.1 s.2.2 d (decodeBitonalStep_len _ _ _ dec _ hs) h4

/-- Accumulating a whitespace-terminated token: while the total stays
within 10 bytes, `_read_token`'s loop appends every byte of `t` to the
nonempty accumulator and stops on the whitespace byte, leaving the rest
of the stream unread. -/
lemma readTokenGo_accept (t : List Nat) :
    ∀ (acc : List Nat) (w : Nat) (fp' : List Nat) (fuel : Nat),
      (∀ c ∈ t, isWs c = false ∧ c ≠ 35) → (acc ≠ [] ∨ t ≠ []) → acc.length + t.length ≤ 10 →
      isWs w = true → t.length + 1 ≤ fuel →
      readTokenGo fuel acc (t ++ w :: fp') = (acc ++ t, fp') := by
  induction t with
  | nil =>
    intro acc w fp' fuel _ hacc hlen hw hfuel
    have hacc' : acc ≠ [] := by
      rcases hacc with h | h
      · exact h
      · exact absurd rfl h
    obtain ⟨f, rfl⟩ : ∃ g, fuel = g + 1 := ⟨fuel - 1, by omega⟩
    simp only [List.nil_append, readTokenGo]
    rw [if_neg (by omega)]
    rw [if_pos hw, if_neg hacc']
    simp
  | cons c t ih =>
    intro acc w fp' fuel hchars hacc hlen hw hfuel
    obtain ⟨f, rfl⟩ : ∃ g, fuel = g + 1 := ⟨fuel - 1, by omega⟩
    have hc := hchars c (by simp)
    simp only [List.cons_append, readTokenGo]
    rw [if_neg (by simp only [List.length_cons] at hlen; omega)]
    rw [if_neg (by simp [hc.1]), if_neg hc.2]
    have hrec := ih (acc ++ [c]) w fp' f
      (fun x hx => hchars x (by simp [hx]))
      (Or.inl (by simp))
      (by simp only [List.length_append, List.length_cons, List.length_nil] at hlen ⊢; omega)
      hw (by simp only [List.length_cons] at hfuel; omega)
    rw [hrec]
    simp

/-- Overlong-token exit of `_read_token`'s loop: once 11 bytes have been
accumulated the loop stops, holding the first 11 bytes and leaving the
rest of the stream unread. -/
lemma readTokenGo_reject (t : List Nat) :
    ∀ (acc fp' : List Nat) (fuel : Nat),
      (∀ c ∈ t, isWs c = false ∧ c ≠ 35) → acc.length ≤ 10 →
      11 ≤ acc.length + t.length → 12 ≤ acc.length + fuel →
      readTokenGo fuel acc (t ++ fp') =
        (acc ++ t.take (11 - acc.length), t.drop (11 - acc.length) ++ fp') := by
  induction t with
  | nil =>
    intro acc fp' fuel _ hle h11 _
    simp only [List.length_nil] at h11
    omega
  | cons c t ih =>
    intro acc fp' fuel hchars hle h11 hfuel
    obtain ⟨f, rfl⟩ : ∃ g, fuel = g + 1 := ⟨fuel - 1, by omega⟩
    have hc := hchars c (by simp)
    simp only [List.cons_append, readTokenGo]
    rw [if_neg (by omega)]
    rw [if_neg (by simp [hc.1]), if_neg hc.2]
    by_cases hacc : acc.length = 10
    · obtain ⟨f2, rfl⟩ : ∃ g, f = g + 1 := ⟨f - 1, by omega⟩
      simp only [readTokenGo]
      rw [if_pos (by simp [hacc])]
      have h1 : 11 - acc.length = 1 := by omega
      rw [h1]
      simp
    · have hrec := ih (acc ++ [c]) fp' f
        (fun x hx => hchars x (by simp [hx]))
        (by simp only [List.length_append, List.length_cons, List.length_nil]; omega)
        (by simp only [List.length_append, List.length_cons, List.length_nil] at h11 ⊢; omega)
        (by simp only [List.length_append, List.length_cons, List.length_nil]; omega)
      rw [hrec]
      have h1 : 11 - (acc ++ [c]).length = (11 - acc.length) - 1 := by
        simp only [List.length_append, List.length_cons, List.length_nil]
        omega
      have h2 : 11 - acc.length = ((11 - acc.length) - 1) + 1 := by omega
      rw [h1, h2]
      rw [List.take_succ_cons, List.drop_succ_cons]
      simp

/-- A whitespace-terminated header token of 1 to 10 non-whitespace,
non-`#` bytes is returned as is by `_read_token`, which consumes the
terminating whitespace byte. -/
lemma readToken_accept (t : List Nat) (w : Nat) (fp' : List Nat)
    (h1 : t ≠ []) (h2 : t.length ≤ 10)
    (h3 : ∀ c ∈ t, isWs c = false ∧ c ≠ 35) (hw : isWs w = true) :
    readToken (t ++ w :: fp') = Except.ok (t, fp') := by
  have hgo : readTokenGo ((t ++ w :: fp').length + 1) [] (t ++ w :: fp') = (t, fp') := by
    have hrec := readTokenGo_accept t [] w fp' ((t ++ w :: fp').length + 1)
      h3 (Or.inr h1) (by simpa) hw
      (by simp only [List.length_append, List.length_cons]; omega)
    simpa using hrec
  simp only [readToken, hgo]
  rw [if_neg h1]
  rw [if_neg (by omega)]

/-- A header token of 11 or more non-whitespace, non-`#` bytes makes
`_read_token` raise the token-too-long error naming its first 11 bytes. -/
lemma readToken_reject (t : List Nat) (fp' : List Nat)
    (h11 : 11 ≤ t.length) (h3 : ∀ c ∈ t, isWs c = false ∧ c ≠ 35) :
    readToken (t ++ fp') = Except.error (headerTokenTooLongErr (t.take 11)) := by
  have hgo := readTokenGo_reject t [] fp' ((t ++ fp').length + 1) h3 (by simp)
    (by simpa) (by simp only [List.length_nil, List.length_append]; omega)
  simp only [List.length_nil, Nat.sub_zero, List.nil_append] at hgo
  have hlen : (t.take 11).length = 11 := by
    simp only [List.length_take]
    omega
  simp only [readToken, hgo]
  rw [if_neg (fun hnil => by rw [hnil] at hlen; simp at hlen)]
  rw [if_pos (by omega)]

/-- The bitonal digit check succeeds exactly when every byte is ASCII
`'0'` or `'1'`. -/
lemma checkBitonalTokens_ok_iff (ts : List Nat) :
    checkBitonalTokens ts = Except.ok () ↔ ∀ c ∈ ts, c = 48 ∨ c = 49 := by
  induction ts with
  | nil => simp [checkBitonalTokens]
  | cons c cs ih =>
    by_cases hc : c = 48 ∨ c = 49
    · simp only [checkBitonalTokens, if_pos hc, ih, List.mem_cons]
      constructor
      · intro h x hx
        rcases hx with rfl | hx
        · exact hc
        · exact h x hx
      · intro h x hx
        exact h x (Or.inr hx)
    · simp only [checkBitonalTokens, if_neg hc]
      constructor
      · intro h
        exact absurd h (by simp)
      · intro h
        exact absurd (h c (by simp)) hc

/-- The bitonal digit check raises on the first byte that is not ASCII
`'0'` or `'1'`, naming it. -/
lemma checkBitonalTokens_err (pre : List Nat) (c : Nat) (post : List Nat)
    (hpre : ∀ b ∈ pre, b = 48 ∨ b = 49) (hc : ¬(c = 48 ∨ c = 49)) :
    checkBitonalTokens (pre ++ c :: post) = Except.error (bitonalTokenErr c) := by
  induction pre with
  | nil =>
    simp only [List.nil_append, checkBitonalTokens]
    rw [if_neg hc]
  | cons b bs ih =>
    have hb := hpre b (by simp)
    simp only [List.cons_append, checkBitonalTokens]
    rw [if_pos hb]
    exact ih (fun x hx => hpre x (by simp [hx]))

/-- C1: block-boundary invariance fails in the source.  The pixel stream
`b"1 2 3 "` for a 3-by-1 8-bit grayscale decode yields `[1, 2, 3]` when
fed as one read block, but `[1, 2, 13]` when fed as the three reads
`b"1"`, `b" 2 "`, `b"3 "`: the half token `b"1"` held after the first
read is stitched again in front of the third read (the source never
clears `half_token` after stitching), turning `b"3"` into `b"13"`. -/
theorem ppm_claim_C1_eval :
    decodeBlocks 1 8 3 1 [[49, 32, 50, 32, 51, 32]] = Except.ok [1, 2, 3] ∧
    decodeBlocks 1 8 3 1 [[49], [32, 50, 32], [51, 32]] = Except.ok [1, 2, 13] ∧
    ([1, 2, 13] : List Nat) ≠ [1, 2, 3] :=
  ⟨rfl, rfl, by decide⟩

/-- C2: early end of stream does not always yield a short buffer.  For a
2-by-2 8-bit grayscale decode whose whole source is the single read
`b"1"` (one token, one byte of output expected from it), the source's
stale `half_token` is flushed and re-decoded on every further iteration,
so the decoder returns the full 4-byte buffer `[1, 1, 1, 1]` instead of
the short buffer `[1]`. -/
theorem ppm_claim_C2_eval :
    decodeBlocks 1 8 2 2 [[49]] = Except.ok [1, 1, 1, 1] ∧
    ([1, 1, 1, 1] : List Nat).length = 2 * 2 * 1 * (8 / 8) :=
  ⟨rfl, rfl⟩

/-- C3 counterexample: a complete data token whose value exceeds the
header's declared max value does not raise.  A grayscale header with
max value 100 resolves to mode `L` (8-bit samples), and the data token
`b"200"` (value 200 > 100) is then accepted and packed by the decoder,
which checks against the mode-derived bound 255 instead. -/
theorem ppm_claim_C3_cex :
    openMaxvalResolve "L" 100 = Except.ok ("L", "L") ∧
    plainDepth "L" "L" = some 8 ∧
    decodeBlocks 1 8 1 1 [[50, 48, 48, 32]] = Except.ok [200] ∧
    (100 : Int) < 200 :=
  ⟨rfl, rfl, rfl, by decide⟩

/-- C3 (amended): in plain-text non-bitonal decode, a complete data token
is checked against the mode-derived bound `2 ^ depth - 1` (with
`2 ^ 31 - 1` for depth 32), not the header's declared max value: a token
whose parsed value exceeds that bound raises the channel-value error
naming the value, a token whose value fits is packed big-endian and
appended, and `decodeBlocks` passes exactly that bound to its loop. -/
theorem ppm_claim_C3 :
    (∀ (bps maxval total : Nat) (t : List Nat) (ts : List (List Nat))
        (dec : List Nat) (v : Int),
      t.length ≤ 10 → pyInt t = Except.ok v → (maxval : Int) < v →
      processTokens bps maxval total (t :: ts) dec = Except.error (channelValueErr v)) ∧
    (∀ (bps maxval total : Nat) (t : List Nat) (ts : List (List Nat))
        (dec : List Nat) (v : Int) (bs : List Nat),
      t.length ≤ 10 → pyInt t = Except.ok v → v ≤ (maxval : Int) →
      toBytesBE v bps = Except.ok bs →
      processTokens bps maxval total (t :: ts) dec =
        (if (dec ++ bs).length = total then Except.ok (dec ++ bs)
         else processTokens bps maxval total ts (dec ++ bs))) ∧
    (∀ (channels depth xsize ysize : Nat) (fd : List (List Nat)),
      decodeBlocks channels depth xsize ysize fd =
        decodeBlocksLoop (depth / 8) (2 ^ (if depth = 32 then 31 else depth) - 1)
          (xsize * ysize * channels * (depth / 8))
          (fd.length + xsize * ysize * channels * (depth / 8) + 8) fd [] false []) := by
  refine ⟨?_, ?_, ?_⟩
  · intro bps maxval total t ts dec v hlen hv hgt
    simp only [processTokens]
    rw [if_neg (by omega), hv]
    simp only []
    rw [if_pos hgt]
  · intro bps maxval total t ts dec v bs hlen hv hle hbs
    simp only [processTokens]
    rw [if_neg (by omega), hv]
    simp only []
    rw [if_neg (by omega), hbs]
  · intro channels depth xsize ysize fd
    rfl

/-- C3 witness: the amended bound check at concrete values — the token
`b"300"` exceeds the 8-bit bound 255 and raises the channel-value error,
while the token `b"200"` fits and is packed. -/
theorem ppm_claim_C3_witness :
    processTokens 1 255 4 [[51, 48, 48]] [] = Except.error (channelValueErr 300) ∧
    processTokens 1 255 4 [[50, 48, 48]] [] =
      (if (([] : List Nat) ++ [200]).length = 4 then Except.ok ([] ++ [200])
       else processTokens 1 255 4 [] ([] ++ [200])) :=
  ⟨ppm_claim_C3.1 1 255 4 [51, 48, 48] [] [] 300 (by decide) rfl (by decide),
   ppm_claim_C3.2.1 1 255 4 [50, 48, 48] [] [] 200 [200] (by decide) rfl (by decide) rfl⟩

/-- C4: in bitonal plain-text decode every byte of every complete token
must be ASCII '0' or '1' (the check succeeds exactly then, and the first
other byte raises the error naming it), '0' is translated to the output
byte 0xFF and '1' to 0x00, and the full input `b"P1\n2 2\n0 1\n1 0\n"`
decodes to the 4-byte buffer `[0xFF, 0x00, 0x00, 0xFF]`. -/
theorem ppm_claim_C4 :
    (∀ ts : List Nat, checkBitonalTokens ts = Except.ok () ↔ ∀ c ∈ ts, c = 48 ∨ c = 49) ∧
    (∀ (pre : List Nat) (c : Nat) (post : List Nat),
      (∀ b ∈ pre, b = 48 ∨ b = 49) → ¬(c = 48 ∨ c = 49) →
      checkBitonalTokens (pre ++ c :: post) = Except.error (bitonalTokenErr c)) ∧
    bitonalTranslate 48 = 255 ∧ bitonalTranslate 49 = 0 ∧
    decodePlainFile [80, 49, 10, 50, 32, 50, 10, 48, 32, 49, 10, 49, 32, 48, 10] =
      Except.ok [255, 0, 0, 255] :=
  ⟨checkBitonalTokens_ok_iff, checkBitonalTokens_err, rfl, rfl, rfl⟩

/-- C4 witness: the digit check at a concrete invalid byte — `b"2"`
(byte 50) after a valid `b"0"` raises the error naming byte 50. -/
theorem ppm_claim_C4_witness :
    checkBitonalTokens ([48] ++ 50 :: [49]) = Except.error (bitonalTokenErr 50) :=
  ppm_claim_C4.2.1 [48] 50 [49] (by decide) (by decide)

/-- C5: for a grayscale header the resolved sample width is a pure
function of the max value: at most 255 keeps mode `L` with 1-byte
samples, strictly between 255 and 65536 resolves to `I;16B` with 2-byte
samples, and 65536 or more resolves to `I;32B` with 4-byte samples. -/
theorem ppm_claim_C5 (mv : Int) :
    (mv ≤ 255 → openMaxvalResolve "L" mv = Except.ok ("L", "L") ∧
      (plainDepth "L" "L").map (fun d => d / 8) = some 1) ∧
    (255 < mv → mv < 65536 → openMaxvalResolve "L" mv = Except.ok ("I", "I;16B") ∧
      (plainDepth "I" "I;16B").map (fun d => d / 8) = some 2) ∧
    (65536 ≤ mv → openMaxvalResolve "L" mv = Except.ok ("I", "I;32B") ∧
      (plainDepth "I" "I;32B").map (fun d => d / 8) = some 4) := by
  refine ⟨?_, ?_, ?_⟩
  · intro h
    constructor
    · unfold openMaxvalResolve
      rw [if_neg (by omega)]
    · rfl
  · intro h1 h2
    constructor
    · unfold openMaxvalResolve
      rw [if_pos (by omega), if_neg (by simp), if_pos (by norm_num; omega)]
    · rfl
  · intro h
    constructor
    · unfold openMaxvalResolve
      rw [if_pos (by omega), if_neg (by simp), if_neg (by norm_num; omega)]
    · rfl

/-- C5 witness: the thresholds at the concrete values 255, 256, 65536. -/
theorem ppm_claim_C5_witness :
    (openMaxvalResolve "L" 255 = Except.ok ("L", "L") ∧
      (plainDepth "L" "L").map (fun d => d / 8) = some 1) ∧
    (openMaxvalResolve "L" 256 = Except.ok ("I", "I;16B") ∧
      (plainDepth "I" "I;16B").map (fun d => d / 8) = some 2) ∧
    (openMaxvalResolve "L" 65536 = Except.ok ("I", "I;32B") ∧
      (plainDepth "I" "I;32B").map (fun d => d / 8) = some 4) :=
  ⟨(ppm_claim_C5 255).1 (by decide),
   (ppm_claim_C5 256).2.1 (by decide) (by decide),
   (ppm_claim_C5 65536).2.2 (by decide)⟩

/-- C6: throughout every plain-text decode the accumulated output never
exceeds the expected byte count: the `_decode_blocks` loop keeps any
buffer that starts within bounds within bounds, so does the
`_decode_bitonal` loop, both entry points obey the bound
`width * height * channels * sample_width`, and the token loop stops
emitting exactly at the boundary, discarding the remaining tokens of the
block without error. -/
theorem ppm_claim_C6 :
    (∀ (bps maxval total fuel : Nat) (fd : List (List Nat)) (dec : List Nat)
        (cs : Bool) (ht : List Nat) (d : List Nat),
      bps ∣ total → bps ∣ dec.length → dec.length ≤ total →
      decodeBlocksLoop bps maxval total fuel fd dec cs ht = Except.ok d →
      d.length ≤ total) ∧
    (∀ (total fuel : Nat) (fd : List (List Nat)) (dec : List Nat) (cs : Bool)
        (d : List Nat),
      dec.length ≤ total →
      decodeBitonalLoop total fuel fd dec cs = Except.ok d → d.length ≤ total) ∧
    (∀ (channels depth xsize ysize : Nat) (fd : List (List Nat)) (d : List Nat),
      decodeBlocks channels depth xsize ysize fd = Except.ok d →
      d.length ≤ xsize * ysize * channels * (depth / 8)) ∧
    (∀ (xsize ysize : Nat) (fd : List (List Nat)) (d : List Nat),
      decodeBitonal xsize ysize fd = Except.ok d → d.length ≤ xsize * ysize) ∧
    (∀ (bps maxval total : Nat) (t : List Nat) (ts : List (List Nat))
        (dec : List Nat) (v : Int) (bs : List Nat),
      t.length ≤ 10 → pyInt t = Except.ok v → v ≤ (maxval : Int) →
      toBytesBE v bps = Except.ok bs → (dec ++ bs).length = total →
      processTokens bps maxval total (t :: ts) dec = Except.ok (dec ++ bs)) := by
  refine ⟨?_, ?_, ?_, ?_, ?_⟩
  · intro bps maxval total fuel fd dec cs ht d h1 h2 h3 h4
    exact decodeBlocksLoop_inv bps maxval total fuel fd dec cs ht d h1 h2 h3 h4
  · intro total fuel fd dec cs d h3 h4
    exact decodeBitonalLoop_inv total fuel fd dec cs d h3 h4
  · intro channels depth xsize ysize fd d h
    simp only [decodeBlocks] at h
    exact decodeBlocksLoop_inv _ _ _ _ _ _ _ _ _
      ⟨xsize * ysize * channels, by ring⟩ (dvd_zero _) (Nat.zero_le _) h
  · intro xsize ysize fd d h
    simp only [decodeBitonal] at h
    split at h
    · exact absurd h (by simp)
    · rename_i d0 h0
      simp only [Except.ok.injEq] at h
      subst h
      rw [List.length_map]
      exact decodeBitonalLoop_inv _ _ _ _ _ _ (Nat.zero_le _) h0
  · intro bps maxval total t ts dec v bs hlen hv hle hbs hfull
    simp only [processTokens]
    rw [if_neg (by omega), hv]
    simp only []
    rw [if_neg (by omega), hbs]
    simp only []
    rw [if_pos hfull]

/-- C6 witness: the entry-point bounds at concrete decodes, and the
boundary stop with a remaining token. -/
theorem ppm_claim_C6_witness :
    ([1] : List Nat).length ≤ 1 * 1 * 1 * (8 / 8) ∧
    ([255] : List Nat).length ≤ 2 * 2 ∧
    processTokens 1 255 1 [[53], [54]] [] = Except.ok ([] ++ [5]) :=
  ⟨ppm_claim_C6.2.2.1 1 8 1 1 [[49, 32]] [1] rfl,
   ppm_claim_C6.2.2.2.1 2 2 [[48]] [255] rfl,
   ppm_claim_C6.2.2.2.2 1 255 1 [53] [[54]] [] 5 [5] (by decide) rfl (by decide) rfl rfl⟩

/-- C7: a token of exactly 10 bytes is accepted by both the header
tokenizer and the data decoder while 11 or more bytes raise the
respective token-too-long error: `_read_token` returns any whitespace-
terminated token of at most 10 non-whitespace non-`#` bytes and raises
on 11 or more, naming the first 11 bytes; the data token loop raises on
a token of 11 or more bytes before producing any further output, and a
10-byte data token (here `b"0000000255"`) passes the length check and is
packed. -/
theorem ppm_claim_C7 :
    (∀ (t : List Nat) (w : Nat) (fp' : List Nat),
      t ≠ [] → t.length ≤ 10 → (∀ c ∈ t, isWs c = false ∧ c ≠ 35) → isWs w = true →
      readToken (t ++ w :: fp') = Except.ok (t, fp')) ∧
    (∀ (t fp' : List Nat), 11 ≤ t.length → (∀ c ∈ t, isWs c = false ∧ c ≠ 35) →
      readToken (t ++ fp') = Except.error (headerTokenTooLongErr (t.take 11))) ∧
    (∀ (bps maxval total : Nat) (t : List Nat) (ts : List (List Nat)) (dec : List Nat),
      11 ≤ t.length →
      processTokens bps maxval total (t :: ts) dec =
        Except.error (dataTokenTooLongErr t)) ∧
    (∀ (total : Nat) (ts : List (List Nat)) (dec : List Nat),
      processTokens 1 255 total ([48, 48, 48, 48, 48, 48, 48, 50, 53, 53] :: ts) dec =
        (if (dec ++ [255]).length = total then Except.ok (dec ++ [255])
         else processTokens 1 255 total ts (dec ++ [255]))) := by
  refine ⟨readToken_accept, readToken_reject, ?_, ?_⟩
  · intro bps maxval total t ts dec h
    simp only [processTokens]
    rw [if_pos (by omega)]
  · intro total ts dec
    rfl

/-- C7 witness: the 10-byte token `b"1234567890"` is accepted by the
header tokenizer, the 11-byte token `b"12345678901"` raises in both the
header tokenizer and the data token loop. -/
theorem ppm_claim_C7_witness :
    readToken ([49, 50, 51, 52, 53, 54, 55, 56, 57, 48] ++ 32 :: []) =
      Except.ok ([49, 50, 51, 52, 53, 54, 55, 56, 57, 48], []) ∧
    readToken ([49, 50, 51, 52, 53, 54, 55, 56, 57, 48, 49] ++ []) =
      Except.error
        (headerTokenTooLongErr ([49, 50, 51, 52, 53, 54, 55, 56, 57, 48, 49].take 11)) ∧
    processTokens 1 255 3 [[49, 50, 51, 52, 53, 54, 55, 56, 57, 48, 49]] [] =
      Except.error (dataTokenTooLongErr [49, 50, 51, 52, 53, 54, 55, 56, 57, 48, 49]) :=
  ⟨ppm_claim_C7.1 [49, 50, 51, 52, 53, 54, 55, 56, 57, 48] 32 [] (by decide) (by decide)
      (by decide) (by decide),
   ppm_claim_C7.2.1 [49, 50, 51, 52, 53, 54, 55, 56, 57, 48, 49] [] (by decide) (by decide),
   ppm_claim_C7.2.2.1 1 255 3 [49, 50, 51, 52, 53, 54, 55, 56, 57, 48, 49] [] [] (by decide)⟩

/-- C8: during header parsing, a max-value token above 255 raises the
"Too many colors" error for every non-grayscale base mode, while for the
grayscale base mode `L` it never raises that error. -/
theorem ppm_claim_C8 (mode : String) (mv : Int) (h : 255 < mv) :
    (mode ≠ "L" → openMaxvalResolve mode mv =
      Except.error ("Too many colors for band: " ++ toString mv)) ∧
    ∃ r, openMaxvalResolve "L" mv = Except.ok r := by
  constructor
  · intro hm
    unfold openMaxvalResolve
    rw [if_pos h, if_pos hm]
  · unfold openMaxvalResolve
    rw [if_pos h, if_neg (by simp)]
    by_cases h16 : mv < 2 ^ 16
    · exact ⟨_, by rw [if_pos h16]⟩
    · exact ⟨_, by rw [if_neg h16]⟩

/-- C8 witness: max value 300 raises for base mode `RGB` and resolves
for base mode `L`. -/
theorem ppm_claim_C8_witness :
    openMaxvalResolve "RGB" 300 =
      Except.error ("Too many colors for band: " ++ toString (300 : Int)) ∧
    ∃ r, openMaxvalResolve "L" 300 = Except.ok r :=
  ⟨(ppm_claim_C8 "RGB" 300 (by decide)).1 (by decide),
   (ppm_claim_C8 "RGB" 300 (by decide)).2⟩

/-- C9: the writer saves an RGBA image silently as RGB (a `P6` header
and the rawmode `RGB` handed to the raw encoder, dropping alpha), and
every pixel mode outside 1, L, I, RGB, RGBA raises the encode error with
no header produced. -/
theorem ppm_claim_C9 (extremaMax : Int) (w h : Nat) :
    ppmSave "RGBA" extremaMax w h =
      Except.ok (saveHeaderText "P6" "RGB" w h, "RGB") ∧
    (∀ m : String, m ≠ "1" → m ≠ "L" → m ≠ "I" → m ≠ "RGB" → m ≠ "RGBA" →
      ppmSave m extremaMax w h =
        Except.error ("cannot write mode " ++ m ++ " as PPM")) := by
  constructor
  · rfl
  · intro m h1 h2 h3 h4 h5
    unfold ppmSave saveResolve
    rw [if_neg h1, if_neg h2, if_neg h3, if_neg h4, if_neg h5]

/-- C9 witness: a concrete RGBA save and a concrete rejected mode. -/
theorem ppm_claim_C9_witness :
    ppmSave "RGBA" 0 2 3 = Except.ok (saveHeaderText "P6" "RGB" 2 3, "RGB") ∧
    ppmSave "P" 0 2 3 = Except.error ("cannot write mode " ++ "P" ++ " as PPM") :=
  ⟨(ppm_claim_C9 0 2 3).1,
   (ppm_claim_C9 0 2 3).2 "P" (by decide) (by decide) (by decide) (by decide) (by decide)⟩

/-- C10: `_accept` is not total on short prefixes: the one-byte prefix
`b"P"` raises an IndexError, every prefix of length at least 2 returns a
boolean, and every prefix not starting with `b"P"` returns `false`
without error. -/
theorem ppm_claim_C10 :
    ppmAccept [80] = Except.error "IndexError: index out of range" ∧
    (∀ p : List Nat, 2 ≤ p.length → ∃ b, ppmAccept p = Except.ok b) ∧
    (∀ p : List Nat, p.take 1 ≠ [80] → ppmAccept p = Except.ok false) := by
  refine ⟨rfl, ?_, ?_⟩
  · intro p hp
    unfold ppmAccept
    by_cases hc : p.take 1 = [80]
    · rw [if_pos hc]
      match p, hp with
      | a :: b :: rest, _ => exact ⟨_, rfl⟩
    · rw [if_neg hc]
      exact ⟨false, rfl⟩
  · intro p hp
    unfold ppmAccept
    rw [if_neg hp]

/-- C10 witness: the two-byte prefix `b"P1"` returns a boolean and the
prefix `b"Q"` returns `false`. -/
theorem ppm_claim_C10_witness :
    (∃ b, ppmAccept [80, 49] = Except.ok b) ∧ ppmAccept [81] = Except.ok false :=
  ⟨ppm_claim_C10.2.1 [80, 49] (by decide), ppm_claim_C10.2.2 [81] (by decide)⟩
